import Mathlib

/-!
# Verification of the emunes NES core (`emuneshdrv0a.py`)

Shallow embedding of the 6502 CPU skeleton (`CPU6502`) and the iNES ROM
loader (`load_nes_rom`).  The 64KB memory bus is a Python list of 65536
ints; reads and writes outside `[0, 65535]` raise `IndexError`, which the
embedding models with `Option` / explicit error results.  Machine
integers are `Nat` with explicit masking exactly where the source masks
(`& 0xFF`, `& 0x80`); the source performs no masking of `PC`.
-/

/-- The 64KB memory bus: `memory = [0x00]*65536` in the source.  The
underlying content is total (`data`), and `read`/`write` perform the
Python list bounds check (an out-of-range index raises `IndexError`,
modelled as `none`). -/
structure Mem where
  data : Nat → Nat

/-- Size of the Python memory list. -/
def MEM_SIZE : Nat := 65536

/-- Unchecked store, used only after a bounds check (or where the index
is a literal below 65536, as in the loader's reset-vector patch). -/
def Mem.set (m : Mem) (a v : Nat) : Mem :=
  ⟨fun x => if x = a then v else m.data x⟩

/-- Python list read `memory[a]` with bounds check. -/
def Mem.read (m : Mem) (a : Nat) : Option Nat :=
  if a < MEM_SIZE then some (m.data a) else none

/-- Python list write `memory[a] = v` with bounds check. -/
def Mem.write (m : Mem) (a v : Nat) : Option Mem :=
  if a < MEM_SIZE then some (m.set a v) else none

/-- The freshly created bus `[0x00]*65536`. -/
def zeroMem : Mem := ⟨fun _ => 0⟩

/-- The flag dictionary `{'C':0,'Z':0,'I':0,'D':0,'B':0,'U':1,'V':0,'N':0}`. -/
structure Flags where
  C : Nat
  Z : Nat
  I : Nat
  D : Nat
  B : Nat
  U : Nat
  V : Nat
  N : Nat
deriving DecidableEq

/-- Register file of `CPU6502`. -/
structure CPU where
  A : Nat
  X : Nat
  Y : Nat
  SP : Nat
  PC : Nat
  flags : Flags
deriving DecidableEq

/-- Register/flag state of `CPU6502.__init__` (the memory is held by
reference and not part of the register file). -/
def CPU.init : CPU :=
  { A := 0x00, X := 0x00, Y := 0x00, SP := 0xFD, PC := 0x0000,
    flags := { C := 0, Z := 0, I := 0, D := 0, B := 0, U := 1, V := 0, N := 0 } }

/-- The `set_flag` normalisation `1 if c else 0` of a (truthy) condition. -/
def flagBit (c : Bool) : Nat := if c then 1 else 0

/-- The body of `update_zn`: `set_flag('Z', v==0); set_flag('N', v & 0x80)` — the
`N` condition is the Python truthiness of the masked value. -/
def CPU.update_zn (cpu : CPU) (v : Nat) : CPU :=
  { cpu with flags :=
      { cpu.flags with
          Z := flagBit (v = 0),
          N := flagBit (v &&& 0x80 ≠ 0) } }

/-- The body of `CPU6502.reset`: `lo,hi = memory[0xFFFC], memory[0xFFFD];
PC = (hi<<8)|lo`.  Both indices are literals below 65536, so the Python
reads cannot fail. -/
def CPU.reset (cpu : CPU) (m : Mem) : CPU :=
  { cpu with PC := (m.data 0xFFFD <<< 8) ||| m.data 0xFFFC }

/-- Outcome of one `CPU6502.step` call.  `cont` is `return True`;
`stopped` is BRK's `return False`; `unknownOp b` is the
`print(f"Unknown opcode …"); return False` path, carrying the printed
byte; `indexError` is a memory read at an index ≥ 65536 (Python
`IndexError`).  Each constructor carries the register file at that
point. -/
inductive StepResult where
  | cont (c : CPU)
  | stopped (c : CPU)
  | unknownOp (b : Nat) (c : CPU)
  | indexError (c : CPU)
deriving DecidableEq

/-- The register file carried by a step outcome. -/
def StepResult.cpu : StepResult → CPU
  | .cont c => c
  | .stopped c => c
  | .unknownOp _ c => c
  | .indexError c => c

/-- One `CPU6502.step` fetch-decode-execute cycle, translated
branch-for-branch from the source. -/
def CPU.step (cpu : CPU) (m : Mem) : StepResult :=
  match m.read cpu.PC with
  | none => .indexError cpu
  | some opcode =>
    let c1 : CPU := { cpu with PC := cpu.PC + 1 }
    if opcode = 0xA9 then        -- LDA #
      match m.read c1.PC with
      | none => .indexError c1
      | some v =>
        let c2 : CPU := { c1 with PC := c1.PC + 1, A := v }
        .cont (c2.update_zn c2.A)
    else if opcode = 0xA2 then   -- LDX #
      match m.read c1.PC with
      | none => .indexError c1
      | some v =>
        let c2 : CPU := { c1 with PC := c1.PC + 1, X := v }
        .cont (c2.update_zn c2.X)
    else if opcode = 0xE8 then   -- INX
      let c2 : CPU := { c1 with X := (c1.X + 1) &&& 0xFF }
      .cont (c2.update_zn c2.X)
    else if opcode = 0x00 then   -- BRK
      .stopped c1
    else
      .unknownOp opcode c1

/-- The iNES magic `b"NES\x1A"`. -/
def inesMagic : List Nat := [0x4E, 0x45, 0x53, 0x1A]

/-- Error outcomes of `load_nes_rom`: `invalidFormat` is the
`ValueError("Not a valid iNES ROM")`; `indexErr` is an uncaught Python
`IndexError` (header shorter than 6 bytes, a PRG write past the end of
the 64KB list, or a mirror read past the end of a truncated PRG
slice). -/
inductive LoadErr where
  | invalidFormat
  | indexErr
deriving DecidableEq

/-- Result of a load: the returned PRG byte count (or the error), plus
the memory as the call left it — Python mutates the list in place, so an
exception can leave a partially written bus behind. -/
inductive LoadResult where
  | ok (n : Nat) (m : Mem)
  | err (e : LoadErr) (m : Mem)

/-- The loop `for i,b in enumerate(bs): memory[base+i] = b` — sequential writes;
an out-of-range write raises, leaving the writes so far in place. -/
def writeSeq (m : Mem) (base : Nat) : List Nat → Except Mem Mem
  | [] => .ok m
  | b :: rest =>
    match m.write base b with
    | none => .error m
    | some m2 => writeSeq m2 (base + 1) rest

/-- The loop `for i in range(n): memory[0xC000+i] = prg_data[i]` starting at
index `i` with `n` iterations left.  The read `prg_data[i]` raises if
the slice is shorter than 16384 bytes. -/
def mirrorLoop (prg : List Nat) (m : Mem) (i : Nat) : Nat → Except Mem Mem
  | 0 => .ok m
  | n + 1 =>
    match prg.get? i with
    | none => .error m
    | some b =>
      match m.write (0xC000 + i) b with
      | none => .error m
      | some m2 => mirrorLoop prg m2 (i + 1) n

/-- The reset-vector fallback: `if memory[0xFFFC] == 0 and
memory[0xFFFD] == 0: memory[0xFFFC] = 0x00; memory[0xFFFD] = 0x80`. -/
def fixVector (m : Mem) : Mem :=
  if m.data 0xFFFC = 0 ∧ m.data 0xFFFD = 0 then
    (m.set 0xFFFC 0x00).set 0xFFFD 0x80
  else m

/-- The part of `load_nes_rom` up to and including the mirroring step (before the
reset-vector fallback): magic check, header reads `data[4]`/`data[5]`,
PRG slice, PRG mapping loop, conditional mirror loop. -/
def loadMapped (data : List Nat) (m : Mem) : LoadResult :=
  if data.take 4 ≠ inesMagic then .err .invalidFormat m
  else
    match data.get? 4 with
    | none => .err .indexErr m
    | some b4 =>
      match data.get? 5 with
      | none => .err .indexErr m
      | some _b5 =>
        let prg_size := b4 * 16 * 1024
        let prg_data := (data.drop 16).take prg_size
        match writeSeq m 0x8000 prg_data with
        | .error m2 => .err .indexErr m2
        | .ok m2 =>
          if prg_size = 16384 then
            match mirrorLoop prg_data m2 0 16384 with
            | .error m3 => .err .indexErr m3
            | .ok m3 => .ok prg_data.length m3
          else .ok prg_data.length m2

/-- The full `load_nes_rom(path, memory)`, with the file contents `data` passed
directly (the `open`/`read` I/O is outside the core).  Returns
`len(prg_data)` and the final bus. -/
def load_nes_rom (data : List Nat) (m : Mem) : LoadResult :=
  match loadMapped data m with
  | .err e m2 => .err e m2
  | .ok n m2 => .ok n (fixVector m2)

/-- An iNES image laid out as the loader consumes it: 4 magic bytes,
PRG bank count `b4`, CHR bank count `b5`, the remaining 10 header bytes
`pad`, then the PRG payload. -/
def mkINES (b4 b5 : Nat) (pad prg : List Nat) : List Nat :=
  0x4E :: 0x45 :: 0x53 :: 0x1A :: b4 :: b5 :: (pad ++ prg)

/-- Scenario B payload: `[0xA9, 0x42, 0x00, ...]` padded to one full
16KB bank. -/
def prgB : List Nat := 0xA9 :: 0x42 :: 0x00 :: List.replicate 16381 0

/-- Bus holding an INX opcode at the top of memory and a reset vector
pointing there. -/
def memINX : Mem :=
  ⟨fun a => if a = 0xFFFF then 0xE8 else
            if a = 0xFFFC then 0xFF else
            if a = 0xFFFD then 0xFF else 0⟩

/-- Bus filled with the unsupported opcode byte 0xFF. -/
def memFF : Mem := ⟨fun _ => 0xFF⟩

/-- A flag cell holds a boolean value. -/
def bit01 (n : Nat) : Prop := n = 0 ∨ n = 1

/-- Every cell of the flag dictionary holds 0 or 1. -/
def flagsOk (f : Flags) : Prop :=
  bit01 f.C ∧ bit01 f.Z ∧ bit01 f.I ∧ bit01 f.D ∧
  bit01 f.B ∧ bit01 f.U ∧ bit01 f.V ∧ bit01 f.N

/-- Register files reachable through the emulator's public operations:
the constructor state, then any interleaving of `reset` and `step`. -/
inductive Reachable : CPU → Prop where
  | init : Reachable CPU.init
  | reset (cpu : CPU) (m : Mem) : Reachable cpu → Reachable (CPU.reset cpu m)
  | step (cpu : CPU) (m : Mem) : Reachable cpu → Reachable (CPU.step cpu m).cpu

/-! ## Helper lemmas -/

theorem Mem.set_data (m : Mem) (a v x : Nat) :
    (m.set a v).data x = if x = a then v else m.data x := rfl

theorem Mem.read_lt (m : Mem) (a : Nat) (h : a < 65536) :
    m.read a = some (m.data a) := by
  simp [Mem.read, MEM_SIZE, h]

theorem Mem.write_lt (m : Mem) (a v : Nat) (h : a < 65536) :
    m.write a v = some (m.set a v) := by
  simp [Mem.write, MEM_SIZE, h]

theorem replicate_getD (n i x d : Nat) :
    (List.replicate n x).getD i d = if i < n then x else d := by
  induction n generalizing i with
  | zero => simp [List.getD]
  | succ k ih =>
    cases i with
    | zero => simp [List.replicate]
    | succ j =>
      simp only [List.replicate, List.getD_cons_succ, ih j, Nat.add_lt_add_iff_right]

/-- The loop `writeSeq` succeeds when all the writes land inside the 64KB bus,
and the resulting bus reads back the written slice over the written
range and the old contents elsewhere. -/
theorem writeSeq_ok (bs : List Nat) : ∀ (m : Mem) (base : Nat),
    base + bs.length ≤ 65536 →
    ∃ m2, writeSeq m base bs = .ok m2 ∧
      (∀ a, base ≤ a → a < base + bs.length → m2.data a = bs.getD (a - base) 0) ∧
      (∀ a, a < base ∨ base + bs.length ≤ a → m2.data a = m.data a) := by
  induction bs with
  | nil =>
    intro m base _
    exact ⟨m, rfl, fun a h1 h2 => by exfalso; simp at h2; omega,
           fun a _ => rfl⟩
  | cons b rest ih =>
    intro m base h
    have hbase : base < 65536 := by simp at h; omega
    have h2 : (base + 1) + rest.length ≤ 65536 := by simp at h; omega
    obtain ⟨m2, hrun, hin, hout⟩ := ih (m.set base b) (base + 1) h2
    refine ⟨m2, ?_, ?_, ?_⟩
    · simp only [writeSeq, Mem.write_lt m base b hbase]
      exact hrun
    · intro a ha1 ha2
      have ha2' : a < base + 1 + rest.length := by simp at ha2; omega
      rcases Nat.eq_or_lt_of_le ha1 with heq | hlt
      · subst heq
        have hx := hout base (Or.inl (by omega))
        rw [hx, Mem.set_data, if_pos rfl]
        simp
      · have hx := hin a (by omega) ha2'
        rw [hx]
        have hsub : a - base = (a - (base + 1)) + 1 := by omega
        rw [hsub, List.getD_cons_succ]
    · intro a ha
      have ha' : a < base ∨ base + 1 + rest.length ≤ a := by
        simp at ha; omega
      have hx := hout a (by omega)
      rw [hx, Mem.set_data, if_neg (by omega)]

/-- The loop `mirrorLoop` succeeds when the slice covers the loop range and the
writes stay inside the bus; the mirror window reads back the slice and
everything else is untouched. -/
theorem mirrorLoop_ok (n : Nat) : ∀ (prg : List Nat) (m : Mem) (i : Nat),
    i + n ≤ prg.length → 0xC000 + i + n ≤ 65536 →
    ∃ m2, mirrorLoop prg m i n = .ok m2 ∧
      (∀ a, 0xC000 + i ≤ a → a < 0xC000 + i + n → m2.data a = prg.getD (a - 0xC000) 0) ∧
      (∀ a, a < 0xC000 + i ∨ 0xC000 + i + n ≤ a → m2.data a = m.data a) := by
  induction n with
  | zero =>
    intro prg m i _ _
    exact ⟨m, rfl, fun a h1 h2 => by omega, fun a _ => rfl⟩
  | succ k ih =>
    intro prg m i hlen hmem
    have hi : i < prg.length := by omega
    have hw : 0xC000 + i < 65536 := by omega
    have hget : prg.get? i = some (prg.getD i 0) := by
      rw [List.getD_eq_getElem?_getD, List.getElem?_eq_getElem hi]
      exact (List.get?_eq_get hi).trans (by simp)
    obtain ⟨m2, hrun, hin, hout⟩ :=
      ih prg (m.set (0xC000 + i) (prg.getD i 0)) (i + 1) (by omega) (by omega)
    refine ⟨m2, ?_, ?_, ?_⟩
    · simp only [mirrorLoop, hget, Mem.write_lt _ _ _ hw]
      exact hrun
    · intro a ha1 ha2
      rcases Nat.eq_or_lt_of_le ha1 with heq | hlt
      · subst heq
        have hx := hout (0xC000 + i) (Or.inl (by omega))
        have hidx : 0xC000 + i - 0xC000 = i := by omega
        rw [hx, Mem.set_data, if_pos rfl, hidx]
      · have hx := hin a (by omega) (by omega)
        rw [hx]
    · intro a ha
      have := hout a (by omega)
      rw [this, Mem.set_data, if_neg (by omega)]

theorem fixVector_data (m : Mem) (a : Nat) :
    (fixVector m).data a =
      if m.data 0xFFFC = 0 ∧ m.data 0xFFFD = 0 then
        (if a = 0xFFFD then 0x80 else if a = 0xFFFC then 0 else m.data a)
      else m.data a := by
  unfold fixVector
  split
  · simp [Mem.set_data]
  · rfl

theorem fixVector_noop (m : Mem) (h : ¬ (m.data 0xFFFC = 0 ∧ m.data 0xFFFD = 0)) :
    fixVector m = m := by
  unfold fixVector
  exact if_neg h

theorem fixVector_data_other (m : Mem) (a : Nat)
    (h1 : a ≠ 0xFFFC) (h2 : a ≠ 0xFFFD) :
    (fixVector m).data a = m.data a := by
  rw [fixVector_data]
  by_cases hc : m.data 0xFFFC = 0 ∧ m.data 0xFFFD = 0
  · rw [if_pos hc, if_neg h2, if_neg h1]
  · rw [if_neg hc]

theorem mkINES_take4 (b4 b5 : Nat) (pad prg : List Nat) :
    (mkINES b4 b5 pad prg).take 4 = inesMagic := rfl

theorem mkINES_get4 (b4 b5 : Nat) (pad prg : List Nat) :
    (mkINES b4 b5 pad prg).get? 4 = some b4 := rfl

theorem mkINES_get5 (b4 b5 : Nat) (pad prg : List Nat) :
    (mkINES b4 b5 pad prg).get? 5 = some b5 := rfl

theorem mkINES_drop16 (b4 b5 : Nat) (pad prg : List Nat) (hpad : pad.length = 10) :
    (mkINES b4 b5 pad prg).drop 16 = prg := by
  show (pad ++ prg).drop 10 = prg
  rw [← hpad, List.drop_left]

/-- Applied to a well-formed header, `loadMapped` reduces definitionally to the
mapping stage: magic check passes, `data[4]`/`data[5]` read the bank
counts, the PRG slice is `(r.drop 10).take prg_size`. -/
theorem loadMapped_cons (b4 b5 : Nat) (r : List Nat) (m : Mem) :
    loadMapped (0x4E :: 0x45 :: 0x53 :: 0x1A :: b4 :: b5 :: r) m =
      (match writeSeq m 0x8000 ((r.drop 10).take (b4 * 16 * 1024)) with
       | .error m2 => LoadResult.err .indexErr m2
       | .ok m2 =>
         if b4 * 16 * 1024 = 16384 then
           match mirrorLoop ((r.drop 10).take (b4 * 16 * 1024)) m2 0 16384 with
           | .error m3 => LoadResult.err .indexErr m3
           | .ok m3 => LoadResult.ok ((r.drop 10).take (b4 * 16 * 1024)).length m3
         else LoadResult.ok ((r.drop 10).take (b4 * 16 * 1024)).length m2) := rfl

/-- Characterisation of `loadMapped` for a one-bank (16KB) image with a
full payload: it succeeds, maps the bank at 0x8000, mirrors it at
0xC000, and touches nothing below 0x8000. -/
theorem loadMapped_k1 (b5 : Nat) (pad prg : List Nat) (m : Mem)
    (hpad : pad.length = 10) (hprg : prg.length = 16384) :
    ∃ m1, loadMapped (mkINES 1 b5 pad prg) m = .ok 16384 m1 ∧
      (∀ a, 0x8000 ≤ a → a < 0xC000 → m1.data a = prg.getD (a - 0x8000) 0) ∧
      (∀ a, 0xC000 ≤ a → a < 0x10000 → m1.data a = prg.getD (a - 0xC000) 0) ∧
      (∀ a, a < 0x8000 → m1.data a = m.data a) := by
  have hdrop : (pad ++ prg).drop 10 = prg := by rw [← hpad, List.drop_left]
  have htake : prg.take (1 * 16 * 1024) = prg := by
    rw [show (1 * 16 * 1024 : Nat) = 16384 by norm_num, ← hprg, List.take_length]
  obtain ⟨m2, hw, hwin, hwout⟩ := writeSeq_ok prg m 0x8000 (by omega)
  obtain ⟨m3, hm, hmin, hmout⟩ := mirrorLoop_ok 16384 prg m2 0 (by omega) (by omega)
  refine ⟨m3, ?_, ?_, ?_, ?_⟩
  · unfold mkINES
    rw [loadMapped_cons, hdrop, htake, hw]
    show (match mirrorLoop prg m2 0 16384 with
          | Except.error m3 => LoadResult.err LoadErr.indexErr m3
          | Except.ok m3 => LoadResult.ok prg.length m3) = LoadResult.ok 16384 m3
    rw [hm]
    show LoadResult.ok prg.length m3 = LoadResult.ok 16384 m3
    rw [hprg]
  · intro a h1 h2
    rw [hmout a (Or.inl (by omega)), hwin a (by omega) (by omega)]
  · intro a h1 h2
    exact hmin a (by omega) (by omega)
  · intro a h
    rw [hmout a (Or.inl (by omega)), hwout a (Or.inl (by omega))]

/-- Characterisation of `loadMapped` for a two-bank (32KB) image with a
full payload: it succeeds, maps the banks over 0x8000..0xFFFF (no
mirroring), and touches nothing below 0x8000. -/
theorem loadMapped_k2 (b5 : Nat) (pad prg : List Nat) (m : Mem)
    (hpad : pad.length = 10) (hprg : prg.length = 32768) :
    ∃ m1, loadMapped (mkINES 2 b5 pad prg) m = .ok 32768 m1 ∧
      (∀ a, 0x8000 ≤ a → a < 0x10000 → m1.data a = prg.getD (a - 0x8000) 0) ∧
      (∀ a, a < 0x8000 → m1.data a = m.data a) := by
  have hdrop : (pad ++ prg).drop 10 = prg := by rw [← hpad, List.drop_left]
  have htake : prg.take (2 * 16 * 1024) = prg := by
    rw [show (2 * 16 * 1024 : Nat) = 32768 by norm_num, ← hprg, List.take_length]
  obtain ⟨m2, hw, hwin, hwout⟩ := writeSeq_ok prg m 0x8000 (by omega)
  refine ⟨m2, ?_, ?_, ?_⟩
  · unfold mkINES
    rw [loadMapped_cons, hdrop, htake, hw]
    show LoadResult.ok prg.length m2 = LoadResult.ok 32768 m2
    rw [hprg]
  · intro a h1 h2
    exact hwin a (by omega) (by omega)
  · intro a h
    exact hwout a (Or.inl (by omega))

/-- A successful mapping stage makes the whole load succeed, returning
the slice length and the vector-patched bus. -/
theorem load_of_loadMapped_ok (data : List Nat) (m : Mem) (n : Nat) (m1 : Mem)
    (h : loadMapped data m = .ok n m1) :
    load_nes_rom data m = .ok n (fixVector m1) := by
  unfold load_nes_rom
  rw [h]

/-- One step when the fetched opcode is 0xA9 (LDA immediate). -/
theorem step_lda (cpu : CPU) (m : Mem) (v : Nat)
    (h0 : m.read cpu.PC = some 0xA9) (h1 : m.read (cpu.PC + 1) = some v) :
    CPU.step cpu m =
      .cont (CPU.update_zn { cpu with PC := cpu.PC + 1 + 1, A := v } v) := by
  unfold CPU.step
  rw [h0]
  show (match m.read (cpu.PC + 1) with
        | none => StepResult.indexError { cpu with PC := cpu.PC + 1 }
        | some v =>
          StepResult.cont (CPU.update_zn { cpu with PC := cpu.PC + 1 + 1, A := v } v)) =
      StepResult.cont (CPU.update_zn { cpu with PC := cpu.PC + 1 + 1, A := v } v)
  rw [h1]

/-- One step when the fetched opcode is 0x00 (BRK). -/
theorem step_brk (cpu : CPU) (m : Mem) (h0 : m.read cpu.PC = some 0x00) :
    CPU.step cpu m = .stopped { cpu with PC := cpu.PC + 1 } := by
  unfold CPU.step
  rw [h0]
  rfl

/-- One step on an opcode outside the supported set. -/
theorem step_unknown (cpu : CPU) (m : Mem) (b : Nat)
    (h0 : m.read cpu.PC = some b)
    (h1 : b ≠ 0xA9) (h2 : b ≠ 0xA2) (h3 : b ≠ 0xE8) (h4 : b ≠ 0x00) :
    CPU.step cpu m = .unknownOp b { cpu with PC := cpu.PC + 1 } := by
  unfold CPU.step
  rw [h0]
  show (if b = 0xA9 then
          match m.read (cpu.PC + 1) with
          | none => StepResult.indexError { cpu with PC := cpu.PC + 1 }
          | some v =>
            StepResult.cont (CPU.update_zn { cpu with PC := cpu.PC + 1 + 1, A := v } v)
        else if b = 0xA2 then
          match m.read (cpu.PC + 1) with
          | none => StepResult.indexError { cpu with PC := cpu.PC + 1 }
          | some v =>
            StepResult.cont (CPU.update_zn { cpu with PC := cpu.PC + 1 + 1, X := v } v)
        else if b = 0xE8 then
          StepResult.cont
            (CPU.update_zn { cpu with PC := cpu.PC + 1, X := (cpu.X + 1) &&& 0xFF }
              ((cpu.X + 1) &&& 0xFF))
        else if b = 0x00 then
          StepResult.stopped { cpu with PC := cpu.PC + 1 }
        else StepResult.unknownOp b { cpu with PC := cpu.PC + 1 }) =
      StepResult.unknownOp b { cpu with PC := cpu.PC + 1 }
  rw [if_neg h1, if_neg h2, if_neg h3, if_neg h4]

/-- The program counter grows by at most 2 in one step (there is no
modular reduction anywhere in `step`). -/
theorem step_pc_le (cpu : CPU) (m : Mem) :
    (CPU.step cpu m).cpu.PC ≤ cpu.PC + 2 := by
  unfold CPU.step
  cases hr : m.read cpu.PC with
  | none => show cpu.PC ≤ cpu.PC + 2; omega
  | some b =>
    dsimp only
    by_cases h1 : b = 0xA9
    · rw [if_pos h1]
      cases hr2 : m.read (cpu.PC + 1) with
      | none => show cpu.PC + 1 ≤ cpu.PC + 2; omega
      | some v => show cpu.PC + 1 + 1 ≤ cpu.PC + 2; omega
    · rw [if_neg h1]
      by_cases h2 : b = 0xA2
      · rw [if_pos h2]
        cases hr2 : m.read (cpu.PC + 1) with
        | none => show cpu.PC + 1 ≤ cpu.PC + 2; omega
        | some v => show cpu.PC + 1 + 1 ≤ cpu.PC + 2; omega
      · rw [if_neg h2]
        by_cases h3 : b = 0xE8
        · rw [if_pos h3]
          show cpu.PC + 1 ≤ cpu.PC + 2; omega
        · rw [if_neg h3]
          by_cases h4 : b = 0x00
          · rw [if_pos h4]
            show cpu.PC + 1 ≤ cpu.PC + 2; omega
          · rw [if_neg h4]
            show cpu.PC + 1 ≤ cpu.PC + 2; omega

/-- Each flag update writes 0 or 1. -/
theorem flagBit01 (c : Bool) : bit01 (flagBit c) := by
  cases c <;> simp [flagBit, bit01]

/-- The update `update_zn` preserves booleanness of the flag dictionary. -/
theorem update_zn_flagsOk (cpu : CPU) (v : Nat) (h : flagsOk cpu.flags) :
    flagsOk (CPU.update_zn cpu v).flags := by
  obtain ⟨h1, _, h3, h4, h5, h6, h7, _⟩ := h
  exact ⟨h1, flagBit01 _, h3, h4, h5, h6, h7, flagBit01 _⟩

/-- One `step` preserves booleanness of the flag dictionary. -/
theorem step_flagsOk (cpu : CPU) (m : Mem) (h : flagsOk cpu.flags) :
    flagsOk (CPU.step cpu m).cpu.flags := by
  unfold CPU.step
  cases hr : m.read cpu.PC with
  | none => exact h
  | some b =>
    dsimp only
    by_cases h1 : b = 0xA9
    · rw [if_pos h1]
      cases hr2 : m.read (cpu.PC + 1) with
      | none => exact h
      | some v => exact update_zn_flagsOk _ _ h
    · rw [if_neg h1]
      by_cases h2 : b = 0xA2
      · rw [if_pos h2]
        cases hr2 : m.read (cpu.PC + 1) with
        | none => exact h
        | some v => exact update_zn_flagsOk _ _ h
      · rw [if_neg h2]
        by_cases h3 : b = 0xE8
        · rw [if_pos h3]
          exact update_zn_flagsOk _ _ h
        · rw [if_neg h3]
          by_cases h4 : b = 0x00
          · rw [if_pos h4]
            exact h
          · rw [if_neg h4]
            exact h

/-! ## Claim theorems -/

/-- Claim C4 (counterexample): from a reachable state with PC = 0xFFFF
(reset vector 0xFFFF), a single `step` on opcode 0xE8 leaves
PC = 65536, outside [0, 65535]: the source increments `PC` without any
modulo-65536 reduction. -/
theorem pc_wrap_cex :
    Reachable (CPU.reset CPU.init memINX) ∧
    (CPU.step (CPU.reset CPU.init memINX) memINX).cpu.PC = 65536 :=
  ⟨Reachable.reset CPU.init memINX Reachable.init, rfl⟩

/-- Claim C4 (amended): `step` never increases PC by more than 2 and
performs no wrap, so PC stays within [0, 65535] exactly when the
pre-step PC is at most 65533; a fetch at PC = 0xFFFF of a
PC-advancing opcode leaves PC = 65536. -/
theorem pc_increase_bound (cpu : CPU) (m : Mem) (h : cpu.PC ≤ 65533) :
    (CPU.step cpu m).cpu.PC ≤ cpu.PC + 2 ∧ (CPU.step cpu m).cpu.PC ≤ 65535 :=
  ⟨step_pc_le cpu m, by have := step_pc_le cpu m; omega⟩

/-- Witness for `pc_increase_bound` at the initial CPU on a fresh bus. -/
theorem pc_increase_bound_witness :
    CPU.init.PC ≤ 65533 ∧
    ((CPU.step CPU.init zeroMem).cpu.PC ≤ CPU.init.PC + 2 ∧
     (CPU.step CPU.init zeroMem).cpu.PC ≤ 65535) :=
  ⟨by decide, pc_increase_bound CPU.init zeroMem (by decide)⟩

/-- Claim C5 (counterexample): on the unsupported opcode 0xFF, `step`
reports the unknown opcode but the register state is NOT unchanged:
PC has advanced by 1 (the fetch increment happens before the opcode is
recognised). -/
theorem unknown_opcode_pc_changes_cex :
    CPU.step CPU.init memFF = .unknownOp 0xFF { CPU.init with PC := 1 } ∧
    { CPU.init with PC := 1 } ≠ CPU.init :=
  ⟨rfl, by decide⟩

/-- Claim C5 (amended): on any unsupported opcode byte, `step` reports
`UnknownOpcode` carrying that byte; A, X, Y, SP and all flags are
unchanged from before the call, and PC is advanced by exactly 1. -/
theorem unknown_opcode_halts_pc_plus_one (cpu : CPU) (m : Mem) (b : Nat)
    (h0 : m.read cpu.PC = some b)
    (h1 : b ≠ 0xA9) (h2 : b ≠ 0xA2) (h3 : b ≠ 0xE8) (h4 : b ≠ 0x00) :
    CPU.step cpu m = .unknownOp b { cpu with PC := cpu.PC + 1 } :=
  step_unknown cpu m b h0 h1 h2 h3 h4

/-- Witness for `unknown_opcode_halts_pc_plus_one`: opcode 0xFF on a
bus full of 0xFF at the initial CPU. -/
theorem unknown_opcode_halts_witness :
    CPU.step CPU.init memFF = .unknownOp 0xFF { CPU.init with PC := CPU.init.PC + 1 } :=
  unknown_opcode_halts_pc_plus_one CPU.init memFF 0xFF (by decide)
    (by decide) (by decide) (by decide) (by decide)

/-- Claim C6: when the first four bytes of the input are not the iNES
magic, the load fails with the invalid-format error and the bus is
returned exactly as it was before the call (nothing is written). -/
theorem invalid_magic_load_untouched (data : List Nat) (m : Mem)
    (h : data.take 4 ≠ inesMagic) :
    load_nes_rom data m = .err .invalidFormat m := by
  unfold load_nes_rom loadMapped
  rw [if_pos h]

/-- Witness for `invalid_magic_load_untouched`: the spec's
`"XES\x1A"` header on a fresh all-zero bus. -/
theorem invalid_magic_load_untouched_witness :
    load_nes_rom [0x58, 0x45, 0x53, 0x1A] zeroMem = .err .invalidFormat zeroMem :=
  invalid_magic_load_untouched [0x58, 0x45, 0x53, 0x1A] zeroMem (by decide)

/-- Claim C9: calling `reset` twice with no `step` in between yields
exactly the same register/flag state as calling it once — the second
call recomputes PC from the same (unchanged) vector bytes. -/
theorem reset_idempotent (cpu : CPU) (m : Mem) :
    CPU.reset (CPU.reset cpu m) m = CPU.reset cpu m := rfl

/-- Claim C10: in every reachable CPU state each flag cell of the flag
dictionary holds exactly 0 or 1 — `set_flag` normalises its (truthy)
condition with `1 if c else 0` before storing, and `__init__`, `reset`
and `step` all preserve the property. -/
theorem reachable_flags_boolean (cpu : CPU) (h : Reachable cpu) :
    flagsOk cpu.flags := by
  induction h with
  | init =>
    exact ⟨Or.inl rfl, Or.inl rfl, Or.inl rfl, Or.inl rfl,
           Or.inl rfl, Or.inr rfl, Or.inl rfl, Or.inl rfl⟩
  | reset cpu m _ ih => exact ih
  | step cpu m _ ih => exact step_flagsOk cpu m ih

/-- Witness for `reachable_flags_boolean` at the reachable initial
state. -/
theorem reachable_flags_boolean_witness : flagsOk CPU.init.flags :=
  reachable_flags_boolean CPU.init Reachable.init

/-- Claim C1 (counterexample): a 16-byte file with valid magic
declaring 2 PRG banks (32768 payload bytes) but carrying none loads
successfully, returning 0 mapped bytes — no truncation error of any
kind is raised. -/
theorem truncated_load_returns_ok :
    ∃ m2, load_nes_rom (0x4E :: 0x45 :: 0x53 :: 0x1A :: 2 :: 0 :: List.replicate 10 0) zeroMem
        = .ok 0 m2 :=
  ⟨_, rfl⟩

/-- Claim C1 (amended): the loader performs no truncation check.  For
a valid magic with declared bank count ≥ 2 and fewer payload bytes
than declared (with the available bytes fitting under 0x10000 so the
write loop itself does not overrun), the load completes successfully,
silently mapping only the available bytes and returning their count,
which is strictly less than the declared PRG size.  (For bank count 1
a truncated payload instead crashes the mirror loop with an
IndexError; in no case is a `TruncatedImage` error surfaced.) -/
theorem truncated_load_silently_truncates (b4 b5 : Nat) (r : List Nat) (m : Mem)
    (hb4 : 2 ≤ b4) (htr : r.length < 10 + b4 * 16 * 1024)
    (hfit : r.length ≤ 10 + 32768) :
    ∃ m2, load_nes_rom (0x4E :: 0x45 :: 0x53 :: 0x1A :: b4 :: b5 :: r) m
        = .ok (r.length - 10) m2 ∧ r.length - 10 < b4 * 16 * 1024 := by
  have hlen : (r.drop 10).length = r.length - 10 := List.length_drop 10 r
  have htake : (r.drop 10).take (b4 * 16 * 1024) = r.drop 10 := by
    apply List.take_of_length_le
    omega
  obtain ⟨m2, hw, _, _⟩ := writeSeq_ok (r.drop 10) m 0x8000 (by omega)
  have hne : ¬ (b4 * 16 * 1024 = 16384) := by omega
  have hlm : loadMapped (0x4E :: 0x45 :: 0x53 :: 0x1A :: b4 :: b5 :: r) m
      = .ok (r.length - 10) m2 := by
    rw [loadMapped_cons, htake, hw]
    show (if b4 * 16 * 1024 = 16384 then
            (match mirrorLoop (r.drop 10) m2 0 16384 with
             | Except.error m3 => LoadResult.err LoadErr.indexErr m3
             | Except.ok m3 => LoadResult.ok (r.drop 10).length m3)
          else LoadResult.ok (r.drop 10).length m2)
        = LoadResult.ok (r.length - 10) m2
    rw [if_neg hne, hlen]
  exact ⟨fixVector m2, load_of_loadMapped_ok _ _ _ _ hlm, by omega⟩

/-- Witness for `truncated_load_silently_truncates`: the 16-byte
2-bank header with no payload. -/
theorem truncated_load_silently_truncates_witness :
    (2 ≤ 2 ∧ (List.replicate 10 0).length < 10 + 2 * 16 * 1024 ∧
     (List.replicate 10 0).length ≤ 10 + 32768) ∧
    ∃ m2, load_nes_rom (0x4E :: 0x45 :: 0x53 :: 0x1A :: 2 :: 0 :: List.replicate 10 0) zeroMem
        = .ok ((List.replicate 10 0).length - 10) m2 ∧
      (List.replicate 10 0).length - 10 < 2 * 16 * 1024 :=
  ⟨⟨by decide, by simp, by simp⟩,
   truncated_load_silently_truncates 2 0 (List.replicate 10 0) zeroMem
     (by decide) (by simp) (by simp)⟩

/-- Claim C2 (counterexample): a valid 2-bank image whose full 32768
payload bytes are all zero loads successfully, but bus address 0xFFFD
(= 0x8000 + 32765, inside the claimed range) reads 0x80 while the
corresponding source PRG byte is 0 — the reset-vector fallback
overwrote a mapped byte. -/
theorem prg_map_vector_fallback_cex :
    ∃ m2, load_nes_rom (mkINES 2 0 (List.replicate 10 0) (List.replicate 32768 0)) zeroMem
        = .ok 32768 m2 ∧
      m2.data 0xFFFD = 0x80 ∧ (List.replicate 32768 0).getD (0xFFFD - 0x8000) 0 = 0 := by
  obtain ⟨m1, hlm, hwin, _⟩ :=
    loadMapped_k2 0 (List.replicate 10 0) (List.replicate 32768 0) zeroMem (by simp)
      (by rw [List.length_replicate])
  have hfc : m1.data 0xFFFC = 0 := by
    rw [hwin 0xFFFC (by omega) (by omega), replicate_getD, ite_self]
  have hfd : m1.data 0xFFFD = 0 := by
    rw [hwin 0xFFFD (by omega) (by omega), replicate_getD, ite_self]
  refine ⟨fixVector m1, load_of_loadMapped_ok _ _ _ _ hlm, ?_,
    by rw [replicate_getD, ite_self]⟩
  rw [fixVector_data, if_pos ⟨hfc, hfd⟩, if_pos rfl]

/-- Claim C2 (amended): for every valid image with 1 or 2 full PRG
banks, the load returns the number of PRG bytes mapped (16384n) and
every bus address in 0x8000..0x8000+16384n−1 other than 0xFFFC and
0xFFFD equals the corresponding source PRG byte exactly.  For n = 1
the claimed range 0x8000..0xBFFF contains neither address, so the
original claim holds unconditionally; for n = 2 the two remaining
addresses also equal the source bytes unless the bytes mapped there
are both zero — the counterexample case, where the reset-vector
fallback rewrites byte 0xFFFD.  (With 3 or more declared banks the
mapping loop overruns the 64KB list.) -/
theorem prg_map_exact_of_full_payload (k b5 : Nat) (pad prg : List Nat) (m : Mem)
    (hk : k = 1 ∨ k = 2) (hpad : pad.length = 10) (hprg : prg.length = 16384 * k) :
    ∃ m2, load_nes_rom (mkINES k b5 pad prg) m = .ok (16384 * k) m2 ∧
      (∀ i, i < 16384 * k → 0x8000 + i ≠ 0xFFFC → 0x8000 + i ≠ 0xFFFD →
        m2.data (0x8000 + i) = prg.getD i 0) ∧
      (¬ (prg.getD (16384 * k - 4) 0 = 0 ∧ prg.getD (16384 * k - 3) 0 = 0) →
        ∀ i, i < 16384 * k → m2.data (0x8000 + i) = prg.getD i 0) := by
  rcases hk with hk | hk
  · subst hk
    obtain ⟨m1, hlm, hlow, hhigh, _⟩ := loadMapped_k1 b5 pad prg m hpad (by omega)
    refine ⟨fixVector m1, load_of_loadMapped_ok _ _ _ _ hlm, ?_, ?_⟩
    · intro i hi h1 h2
      rw [fixVector_data_other m1 _ h1 h2]
      have hx := hlow (0x8000 + i) (by omega) (by omega)
      have hix : 0x8000 + i - 0x8000 = i := by omega
      rw [hx, hix]
    · intro _ i hi
      rw [fixVector_data_other m1 _ (by omega) (by omega)]
      have hx := hlow (0x8000 + i) (by omega) (by omega)
      have hix : 0x8000 + i - 0x8000 = i := by omega
      rw [hx, hix]
  · subst hk
    obtain ⟨m1, hlm, hwin, _⟩ := loadMapped_k2 b5 pad prg m hpad (by omega)
    refine ⟨fixVector m1, load_of_loadMapped_ok _ _ _ _ hlm, ?_, ?_⟩
    · intro i hi h1 h2
      rw [fixVector_data_other m1 _ h1 h2]
      have hx := hwin (0x8000 + i) (by omega) (by omega)
      have hix : 0x8000 + i - 0x8000 = i := by omega
      rw [hx, hix]
    · intro hvec i hi
      have hfc : m1.data 0xFFFC = prg.getD 32764 0 := hwin 0xFFFC (by omega) (by omega)
      have hfd : m1.data 0xFFFD = prg.getD 32765 0 := hwin 0xFFFD (by omega) (by omega)
      have hnz : ¬ (m1.data 0xFFFC = 0 ∧ m1.data 0xFFFD = 0) := by
        rw [hfc, hfd]
        exact hvec
      rw [fixVector_noop m1 hnz]
      have hx := hwin (0x8000 + i) (by omega) (by omega)
      have hix : 0x8000 + i - 0x8000 = i := by omega
      rw [hx, hix]

/-- Witness for `prg_map_exact_of_full_payload`: one full bank of
0x07 bytes. -/
theorem prg_map_exact_of_full_payload_witness :
    ((1 = 1 ∨ 1 = 2) ∧ (List.replicate 10 0).length = 10 ∧
     (List.replicate 16384 7).length = 16384 * 1) ∧
    ∃ m2, load_nes_rom (mkINES 1 0 (List.replicate 10 0) (List.replicate 16384 7)) zeroMem
        = .ok (16384 * 1) m2 ∧
      (∀ i, i < 16384 * 1 → 0x8000 + i ≠ 0xFFFC → 0x8000 + i ≠ 0xFFFD →
        m2.data (0x8000 + i) = (List.replicate 16384 7).getD i 0) ∧
      (¬ ((List.replicate 16384 7).getD (16384 * 1 - 4) 0 = 0 ∧
          (List.replicate 16384 7).getD (16384 * 1 - 3) 0 = 0) →
        ∀ i, i < 16384 * 1 → m2.data (0x8000 + i) = (List.replicate 16384 7).getD i 0) :=
  ⟨⟨Or.inl rfl, by simp, by rw [List.length_replicate]⟩,
   prg_map_exact_of_full_payload 1 0 (List.replicate 10 0) (List.replicate 16384 7)
     zeroMem (Or.inl rfl) (by simp) (by rw [List.length_replicate])⟩

/-- Claim C3 (counterexample): a valid 1-bank image whose full payload
is all zero loads successfully, but the mirroring law fails at the top
of memory: bus[0xFFFD] = 0x80 (written by the reset-vector fallback
after mirroring) while bus[0xBFFD] = 0. -/
theorem mirror_law_cex :
    ∃ m2, load_nes_rom (mkINES 1 0 (List.replicate 10 0) (List.replicate 16384 0)) zeroMem
        = .ok 16384 m2 ∧ m2.data 0xFFFD = 0x80 ∧ m2.data 0xBFFD = 0 := by
  obtain ⟨m1, hlm, hlow, hhigh, _⟩ :=
    loadMapped_k1 0 (List.replicate 10 0) (List.replicate 16384 0) zeroMem (by simp)
      (by rw [List.length_replicate])
  have hfc : m1.data 0xFFFC = 0 := by
    rw [hhigh 0xFFFC (by omega) (by omega), replicate_getD, ite_self]
  have hfd : m1.data 0xFFFD = 0 := by
    rw [hhigh 0xFFFD (by omega) (by omega), replicate_getD, ite_self]
  refine ⟨fixVector m1, load_of_loadMapped_ok _ _ _ _ hlm, ?_, ?_⟩
  · rw [fixVector_data, if_pos ⟨hfc, hfd⟩, if_pos rfl]
  · rw [fixVector_data, if_pos ⟨hfc, hfd⟩, if_neg (by norm_num), if_neg (by norm_num),
        hlow 0xBFFD (by omega) (by omega), replicate_getD, ite_self]

/-- Claim C3 (amended): for a valid 1-bank image with full payload
whose bytes at payload offsets 0x3FFC/0x3FFD (the ones mirrored to
0xFFFC/0xFFFD) are not both zero, after the load every bus address in
0xC000..0xFFFF equals the bus address 0x4000 lower.  (When those two
bytes are both zero the reset-vector fallback rewrites 0xFFFD to 0x80,
breaking the mirror at that one address.) -/
theorem mirror_law_of_vector_nonzero (b5 : Nat) (pad prg : List Nat) (m : Mem)
    (hpad : pad.length = 10) (hprg : prg.length = 16384)
    (hvec : ¬ (prg.getD 16380 0 = 0 ∧ prg.getD 16381 0 = 0)) :
    ∃ m2, load_nes_rom (mkINES 1 b5 pad prg) m = .ok 16384 m2 ∧
      ∀ a, 0xC000 ≤ a → a ≤ 0xFFFF → m2.data a = m2.data (a - 0x4000) := by
  obtain ⟨m1, hlm, hlow, hhigh, _⟩ := loadMapped_k1 b5 pad prg m hpad hprg
  have hnz : ¬ (m1.data 0xFFFC = 0 ∧ m1.data 0xFFFD = 0) := by
    rw [hhigh 0xFFFC (by omega) (by omega), hhigh 0xFFFD (by omega) (by omega)]
    exact hvec
  refine ⟨m1, ?_, ?_⟩
  · rw [load_of_loadMapped_ok _ _ _ _ hlm, fixVector_noop m1 hnz]
  · intro a h1 h2
    have hup := hhigh a (by omega) (by omega)
    have hlo := hlow (a - 0x4000) (by omega) (by omega)
    have hix : a - 0x4000 - 0x8000 = a - 0xC000 := by omega
    rw [hup, hlo, hix]

/-- Witness for `mirror_law_of_vector_nonzero`: one full bank of 0x07
bytes. -/
theorem mirror_law_witness :
    ((List.replicate 10 0).length = 10 ∧ (List.replicate 16384 7).length = 16384 ∧
     ¬ ((List.replicate 16384 7).getD 16380 0 = 0 ∧
        (List.replicate 16384 7).getD 16381 0 = 0)) ∧
    ∃ m2, load_nes_rom (mkINES 1 0 (List.replicate 10 0) (List.replicate 16384 7)) zeroMem
        = .ok 16384 m2 ∧
      ∀ a, 0xC000 ≤ a → a ≤ 0xFFFF → m2.data a = m2.data (a - 0x4000) :=
  ⟨⟨by simp, by rw [List.length_replicate],
    by rw [replicate_getD, replicate_getD]; norm_num⟩,
   mirror_law_of_vector_nonzero 0 (List.replicate 10 0) (List.replicate 16384 7) zeroMem
     (by simp) (by rw [List.length_replicate])
     (by rw [replicate_getD, replicate_getD]; norm_num)⟩

theorem prgB_getD0 : prgB.getD 0 0 = 0xA9 := rfl

theorem prgB_getD1 : prgB.getD 1 0 = 0x42 := rfl

theorem prgB_getD2 : prgB.getD 2 0 = 0x00 := rfl

theorem prgB_getD_big (n : Nat) : prgB.getD (n + 3) 0 = 0 := by
  show (0xA9 :: 0x42 :: 0x00 :: List.replicate 16381 (0 : Nat)).getD (n + 3) 0 = 0
  have h3 : n + 3 = (n + 2) + 1 := rfl
  have h2 : n + 2 = (n + 1) + 1 := rfl
  rw [h3, List.getD_cons_succ, h2, List.getD_cons_succ, List.getD_cons_succ,
      replicate_getD, ite_self]

theorem prgB_length : prgB.length = 16384 := by
  show (0xA9 :: 0x42 :: 0x00 :: List.replicate 16381 (0 : Nat)).length = 16384
  rw [List.length_cons, List.length_cons, List.length_cons, List.length_replicate]

/-- Claim C8 (Scenario B): loading a 1-bank image whose payload starts
`[0xA9, 0x42, 0x00, ...]` and resetting, the first `step` loads A with
0x42 (Zero = 0, Negative = 0) and reports continuation, and the second
`step` fetches opcode 0x00 (BRK) and reports the stopped outcome. -/
theorem scenario_b_lda_brk :
    ∃ m2, load_nes_rom (mkINES 1 0 (List.replicate 10 0) prgB) zeroMem = .ok 16384 m2 ∧
      ∃ c1, CPU.step (CPU.reset CPU.init m2) m2 = .cont c1 ∧
        c1.A = 0x42 ∧ c1.flags.Z = 0 ∧ c1.flags.N = 0 ∧
        ∃ c2, CPU.step c1 m2 = .stopped c2 := by
  obtain ⟨m1, hlm, hlow, hhigh, _⟩ :=
    loadMapped_k1 0 (List.replicate 10 0) prgB zeroMem (by simp) prgB_length
  have hfc : m1.data 0xFFFC = 0 :=
    (hhigh 0xFFFC (by omega) (by omega)).trans (prgB_getD_big 16377)
  have hfd : m1.data 0xFFFD = 0 :=
    (hhigh 0xFFFD (by omega) (by omega)).trans (prgB_getD_big 16378)
  have hF : ∀ a, (fixVector m1).data a =
      if a = 0xFFFD then 0x80 else if a = 0xFFFC then 0 else m1.data a := by
    intro a
    rw [fixVector_data, if_pos ⟨hfc, hfd⟩]
  have hm80 : (fixVector m1).data 0x8000 = 0xA9 := by
    rw [hF 0x8000, if_neg (by norm_num), if_neg (by norm_num)]
    exact (hlow 0x8000 (by omega) (by omega)).trans prgB_getD0
  have hm81 : (fixVector m1).data 0x8001 = 0x42 := by
    rw [hF 0x8001, if_neg (by norm_num), if_neg (by norm_num)]
    exact (hlow 0x8001 (by omega) (by omega)).trans prgB_getD1
  have hm82 : (fixVector m1).data 0x8002 = 0x00 := by
    rw [hF 0x8002, if_neg (by norm_num), if_neg (by norm_num)]
    exact (hlow 0x8002 (by omega) (by omega)).trans prgB_getD2
  have hr : CPU.reset CPU.init (fixVector m1) = { CPU.init with PC := 0x8000 } := by
    unfold CPU.reset
    rw [hF 0xFFFD, hF 0xFFFC, if_pos rfl, if_neg (by norm_num), if_pos rfl]
    rfl
  have hr0 : (fixVector m1).read 0x8000 = some 0xA9 := by
    rw [Mem.read_lt _ _ (by norm_num), hm80]
  have hr1 : (fixVector m1).read 0x8001 = some 0x42 := by
    rw [Mem.read_lt _ _ (by norm_num), hm81]
  have hr2 : (fixVector m1).read 0x8002 = some 0x00 := by
    rw [Mem.read_lt _ _ (by norm_num), hm82]
  have hs1 : CPU.step { CPU.init with PC := 0x8000 } (fixVector m1) =
      .cont (CPU.update_zn { CPU.init with PC := 0x8000 + 1 + 1, A := 0x42 } 0x42) :=
    step_lda { CPU.init with PC := 0x8000 } (fixVector m1) 0x42 hr0 hr1
  refine ⟨fixVector m1, load_of_loadMapped_ok _ _ _ _ hlm, ?_⟩
  rw [hr]
  exact ⟨_, hs1, rfl, rfl, rfl, _, step_brk _ _ hr2⟩

/-- Claim C7: a load whose mapping stage succeeds ends with the
reset-vector fallback: when the two bytes at 0xFFFC/0xFFFD are both
zero after mapping (and mirroring), the loader writes 0x00 and 0x80
there; otherwise it leaves the whole bus exactly as the mapping left
it. -/
theorem reset_vector_fallback (data : List Nat) (m : Mem) (n : Nat) (m1 : Mem)
    (h : loadMapped data m = .ok n m1) :
    load_nes_rom data m = .ok n (fixVector m1) ∧
    ((m1.data 0xFFFC = 0 ∧ m1.data 0xFFFD = 0) →
      (fixVector m1).data 0xFFFC = 0x00 ∧ (fixVector m1).data 0xFFFD = 0x80 ∧
      ∀ a, a ≠ 0xFFFC → a ≠ 0xFFFD → (fixVector m1).data a = m1.data a) ∧
    (¬ (m1.data 0xFFFC = 0 ∧ m1.data 0xFFFD = 0) →
      ∀ a, (fixVector m1).data a = m1.data a) := by
  refine ⟨load_of_loadMapped_ok _ _ _ _ h, ?_, ?_⟩
  · intro hz
    refine ⟨?_, ?_, ?_⟩
    · rw [fixVector_data, if_pos hz, if_neg (by norm_num), if_pos rfl]
    · rw [fixVector_data, if_pos hz, if_pos rfl]
    · intro a ha1 ha2
      rw [fixVector_data, if_pos hz, if_neg ha2, if_neg ha1]
  · intro hnz
    intro a
    rw [fixVector_noop m1 hnz]

/-- Witness for `reset_vector_fallback`: the minimal 6-byte valid
header with zero banks on a fresh bus (mapping succeeds, maps nothing,
the all-zero vector is patched to 0x8000). -/
theorem reset_vector_fallback_witness :
    load_nes_rom [0x4E, 0x45, 0x53, 0x1A, 0, 0] zeroMem = .ok 0 (fixVector zeroMem) ∧
    ((zeroMem.data 0xFFFC = 0 ∧ zeroMem.data 0xFFFD = 0) →
      (fixVector zeroMem).data 0xFFFC = 0x00 ∧ (fixVector zeroMem).data 0xFFFD = 0x80 ∧
      ∀ a, a ≠ 0xFFFC → a ≠ 0xFFFD → (fixVector zeroMem).data a = zeroMem.data a) ∧
    (¬ (zeroMem.data 0xFFFC = 0 ∧ zeroMem.data 0xFFFD = 0) →
      ∀ a, (fixVector zeroMem).data a = zeroMem.data a) :=
  reset_vector_fallback [0x4E, 0x45, 0x53, 0x1A, 0, 0] zeroMem 0 zeroMem rfl
